import Mathlib

/-!
Verification of the phen_prior batch pipeline against its specification.

The development shallowly embeds the file-naming, resumability, batch
fault-isolation, text-chunking, HPO-term filtering and SQLite identifier
rewrite logic of the repository (src/main.py, src/modules/text_ops.py,
src/modules/hpo_ops.py, src/modules/db_ops.py) as executable Lean
definitions, and proves or refutes the specified properties about them.

File systems are modelled as lists of file names in a result directory;
external collaborators (language model, Docker tools) are modelled by
their observable inputs and outputs.
-/

namespace PhenPrior

/-! ## Artifact naming (src/modules/text_ops.py write_text, src/modules/hpo_ops.py, src/main.py) -/

/-- Name of the file written by write_text in modules/text_ops.py:
the Python code writes to result_dir / (sample_name + suffix + ".txt"). -/
def write_text_name (sample_name suffix : String) : String :=
  sample_name ++ suffix ++ ".txt"

/-- Name of the CSV whose existence execute_clinprior in modules/hpo_ops.py
checks after the ranking container finishes: sample_name + "_clinprior.csv". -/
def clinprior_output_csv (sample_name : String) : String :=
  sample_name ++ "_clinprior.csv"

/-- Name of the CSV read by modify_sqlite in modules/db_ops.py:
sample_name + "_05_clinprior.csv". -/
def persist_csv (sample_name : String) : String :=
  sample_name ++ "_05_clinprior.csv"

/-- The complete list of result-directory file names produced by a successful
run of steps 2 to 5 of the Pipeline, as written by the source:
process_text writes suffix "_processed_text", get_hpo writes "_eng" and
"_hpo_terms", filter_terms writes "_filtered_terms", and the ranking
collaborator leaves the CSV under the name checked by execute_clinprior.
No step renames any of these files. -/
def pipeline_written_files (sample_name : String) : List String :=
  [write_text_name sample_name "_processed_text",
   write_text_name sample_name "_eng",
   write_text_name sample_name "_hpo_terms",
   write_text_name sample_name "_filtered_terms",
   clinprior_output_csv sample_name]

/-- Embedding of execute_clinprior in modules/hpo_ops.py restricted to its
file-system effects: it requires clinprior_script.r in the result directory,
fails on a non-zero container exit code, fails when the CSV named
clinprior_output_csv is absent, and otherwise leaves the set of files
unchanged (the source performs no rename of the CSV). -/
def execute_clinprior_files (files : List String) (sample_name : String)
    (rc : Int) : Except String (List String) :=
  if (files.contains "clinprior_script.r") = false then
    Except.error "R-script not found"
  else if rc ≠ 0 then
    Except.error "ClinPrior exited with non-zero status"
  else if (files.contains (clinprior_output_csv sample_name)) = false then
    Except.error "ClinPrior CSV not found"
  else
    Except.ok files

/-- Embedding of the initial existence check of modify_sqlite in
modules/db_ops.py: it raises FileNotFoundError unless the file named
persist_csv is present in the result directory. -/
def modify_sqlite_csv_check (files : List String) (sample_name : String) :
    Except String Unit :=
  if files.contains (persist_csv sample_name) then Except.ok ()
  else Except.error "ClinPrior CSV not found"

/-! ## Resumability check (src/main.py) -/

/-- The three terminal artifacts expected by the function of src/main.py
that decides whether a prior run completed. -/
def expected_artifacts (sample_name : String) : List String :=
  [sample_name ++ "_02_processed_text.txt",
   sample_name ++ "_04_filtered_terms.txt",
   sample_name ++ "_05_clinprior.csv"]

/-- Embedding of the output-completeness check of src/main.py:
true exactly when all expected artifacts exist in the directory. -/
def is_output_complete (files : List String) (sample_name : String) : Bool :=
  (expected_artifacts sample_name).all (fun a => files.contains a)

/-- Action taken by the batch coordinator for one document directory. -/
inductive DocAction
  | skipCompleted
  | deleteThenRun
  | runFresh
  deriving DecidableEq

/-- Embedding of the per-document branch in the batch coordinator of
src/main.py: an existing complete directory is skipped; an existing
incomplete directory is recursively deleted and the document re-executed;
a missing directory is executed fresh. -/
def batch_doc_action (dir_exists : Bool) (files : List String)
    (sample_name : String) : DocAction :=
  if dir_exists && is_output_complete files sample_name then
    DocAction.skipCompleted
  else if dir_exists then
    DocAction.deleteThenRun
  else
    DocAction.runFresh

/-! ## Batch fault isolation (src/main.py) -/

/-- Observable outcome of one run dispatched by the batch coordinator:
whether an error artifact was written into the result directory of the
run, with its text, and whether the run counts as a success. -/
structure RunResult where
  error_artifact : Option String
  ok : Bool
  deriving DecidableEq

/-- Embedding of the per-run wrapper of src/main.py: a run whose pipeline
raises is caught there, the exception text is written to error.txt in the
result directory of that run, and False is returned; a run whose pipeline
completes returns True and writes no error artifact. -/
def run_pipeline_sync (outcome : Except String Unit) : RunResult :=
  match outcome with
  | Except.ok _ => { error_artifact := none, ok := true }
  | Except.error e => { error_artifact := some e, ok := false }

/-- Results of dispatching a list of pending documents, one outcome each. -/
def batch_results (outcomes : List (Except String Unit)) : List RunResult :=
  outcomes.map run_pipeline_sync

/-- Final report of the batch coordinator of src/main.py: the number of
successes is the number of pending documents minus the number of False
results, and the number of failures is the number of False results. -/
def batch_report (outcomes : List (Except String Unit)) : Nat × Nat :=
  let failed := (batch_results outcomes).countP (fun r => !r.ok)
  (outcomes.length - failed, failed)

/-! ## PhenoTagger invocation (src/modules/hpo_ops.py) -/

/-- Hard wall-clock ceiling of the PhenoTagger container, in seconds. -/
def DOCKER_TIMEOUT : Nat := 60 * 60

/-- Embedding of the outcome of execute_phenotagger in modules/hpo_ops.py,
parametrised by the wall-clock seconds the container ran, its exit code and
the parsed output text: the source kills the container and raises once the
elapsed time exceeds DOCKER_TIMEOUT, raises on a non-zero exit code, and
otherwise returns the parsed output unconditionally; the shell parse
pipeline ends in sed and hence exits zero even when grep matched nothing,
so an empty parsed output is returned as an empty string. -/
def execute_phenotagger_result (elapsed : Nat) (rc : Int) (parsed : String) :
    Except String String :=
  if DOCKER_TIMEOUT < elapsed then
    Except.error "PhenoTagger timeout exceeded"
  else if rc ≠ 0 then
    Except.error "PhenoTagger exited with non-zero status"
  else
    Except.ok parsed

/-! ## Filter step (src/modules/hpo_ops.py filter_terms, src/main.py) -/

/-- Embedding of re.findall applied to the pattern HP followed by a colon
and exactly seven digits, over the response text as a character list:
scanning left to right, a match consumes its ten characters and scanning
resumes after it (non-overlapping), and a failed match advances one
character. Matches are returned in order of occurrence, duplicates kept.
The first argument is fuel making the recursion structural; at least one
character is consumed per step, so list length is always enough fuel. -/
def hpo_scan : Nat → List Char → List (List Char)
  | 0, _ => []
  | Nat.succ _, [] => []
  | Nat.succ fuel, 'H' :: 'P' :: ':' :: d1 :: d2 :: d3 :: d4 :: d5 :: d6 :: d7 :: rest =>
    if d1.isDigit && d2.isDigit && d3.isDigit && d4.isDigit &&
        d5.isDigit && d6.isDigit && d7.isDigit then
      ('H' :: 'P' :: ':' :: d1 :: d2 :: d3 :: d4 :: d5 :: d6 :: d7 :: []) ::
        hpo_scan fuel rest
    else
      hpo_scan fuel ('P' :: ':' :: d1 :: d2 :: d3 :: d4 :: d5 :: d6 :: d7 :: rest)
  | Nat.succ fuel, _ :: rest => hpo_scan fuel rest

/-- The list of HP codes recovered from a response by the pattern match. -/
def hpo_matches (l : List Char) : List (List Char) := hpo_scan l.length l

/-- Embedding of the return value of filter_terms in modules/hpo_ops.py:
the recovered codes joined with commas, or None when no code matched. -/
def filter_terms_result (response : List Char) : Option (List Char) :=
  match hpo_matches response with
  | [] => none
  | codes => some (List.intercalate [','] codes)

/-- The conservative default code substituted by the orchestrator. -/
def defaultHpo : List Char := "HP:0000118".toList

/-- Embedding of the term-list computation in the Rank step of src/main.py:
when the filter result is falsy (None or the empty string) the default code
is used, otherwise the comma-separated codes are intersected with the
whitelist and re-joined with commas. -/
def final_terms (filtered_terms : Option (List Char))
    (wl : List (List Char)) : List Char :=
  match filtered_terms with
  | none => defaultHpo
  | some s =>
    if s = [] then defaultHpo
    else List.intercalate [','] ((List.splitOn ',' s).filter (fun t => wl.contains t))

/-! ## Persist step identifier rewrite (src/modules/db_ops.py modify_sqlite) -/

/-- Phase one of the update in modify_sqlite: the SQL statement negates
every positive base__uid value in the variant table. -/
def negate_positives (uids : List Int) : List Int :=
  uids.map (fun x => if 0 < x then -x else x)

/-- One element of the executemany batch in modify_sqlite: the SQL
statement sets base__uid to the new value on every row whose base__uid
currently equals the negation of the old value. -/
def apply_update (uids : List Int) (newv oldv : Int) : List Int :=
  uids.map (fun x => if x = -oldv then newv else x)

/-- The executemany batch of modify_sqlite: the per-row updates, each a
pair of the adjusted position and the original identifier, applied in
sequence to the table. -/
def apply_updates (ups : List (Int × Int)) (uids : List Int) : List Int :=
  ups.foldl (fun acc p => apply_update acc p.1 p.2) uids

/-- The set of identifiers one to n, as the list of integers 1, ..., n. -/
def oneTo (n : Nat) : List Int :=
  (List.range n).map (fun (i : Nat) => (i : Int) + 1)

/-- Effect of the whole executemany batch on a single table cell. -/
def cell_after (ups : List (Int × Int)) (x : Int) : Int :=
  match ups with
  | [] => x
  | (newv, oldv) :: rest => cell_after rest (if x = -oldv then newv else x)

/-! ## Persist step adjusted positions (src/modules/db_ops.py) -/

/-- One row of the variant table as read by modify_sqlite: identifier,
gene symbol and pathogenicity classification. -/
structure Variant where
  uid : Int
  gene : String
  acmg : String

/-- The fixed five-level pathogenicity-category ordering declared in
adjust_positions in modules/db_ops.py. -/
def acmg_order : List String :=
  ["Pathogenic", "Likely pathogenic", "Uncertain significance",
   "Likely benign", "Benign"]

/-- Sort rank of a classification value under the ordered categorical:
its index in the category list, with values outside the list (NaN codes in
the ordered categorical) ranking after all five categories, as the sort
places missing categories last. -/
def acmgRank (s : String) : Nat :=
  acmg_order.findIdx (fun c => c == s)

/-- Embedding of extract_pos in modules/db_ops.py: the index of the first
ranking-CSV row whose Symbol equals the gene, plus one; None when the gene
is absent from the CSV (the source returns the string None there). The CSV
is represented by its Symbol column. -/
def extract_pos (gene : String) (symbols : List String) : Option Nat :=
  (symbols.findIdx? (fun s => s == gene)).map (fun i => i + 1)

/-- Ordering of the secondary sort key, modelling how pandas orders the
mixed object column holding integer positions and the string None: numeric
keys ascend and every numeric key precedes the string, so unmatched rows
(key none) sort after all matched rows. -/
def posLEb : Option Nat → Option Nat → Bool
  | some a, some b => a ≤ b
  | some _, none => true
  | none, some _ => false
  | none, none => true

/-- The lexicographic sort key of sort_values in adjust_positions: primary
key the category rank, secondary key the position from the ranking CSV. -/
def keyLEb (a b : Variant × Option Nat) : Bool :=
  decide (acmgRank a.1.acmg < acmgRank b.1.acmg) ||
    (decide (acmgRank a.1.acmg = acmgRank b.1.acmg) && posLEb a.2 b.2)

/-- Embedding of the position computation of modify_sqlite and
adjust_positions in modules/db_ops.py: each row is keyed by extract_pos,
the table is stably sorted by category rank then position key (the pandas
multi-column sort is a stable lexicographic sort), and the sorted rows
receive the adjusted positions one to n in order. -/
def adjust_positions (rows : List Variant) (symbols : List String) :
    List (Variant × Nat) :=
  ((rows.map (fun r => (r, extract_pos r.gene symbols))).mergeSort
      keyLEb).enum.map (fun ip => (ip.2.1, ip.1 + 1))

/-! ## Normalize step chunking (src/modules/text_ops.py) -/

/-- Abstract interface to the external collaborators of the Normalize step:
the tokenizer length function, the nltk sentence tokenizer, and the
six-prompt language-model chain of process_text treated as one
text-transformation invocation. -/
structure TextEnv where
  token_len : String → Nat
  sent_tokenize : String → List String
  chain : String → String

/-- Embedding of split_text in modules/text_ops.py: the sentence list is
cut at half its length, and each side is re-joined with single spaces. -/
def split_text (env : TextEnv) (text : String) : String × String :=
  let sentences := env.sent_tokenize text
  let mid := sentences.length / 2
  (String.intercalate " " (sentences.take mid),
   String.intercalate " " (sentences.drop mid))

/-- Embedding of process_text in modules/text_ops.py: text over the 8192
token threshold is split and both halves processed recursively with the
results joined by one newline, text at or under the threshold goes through
the collaborator chain once. The result carries the number of collaborator
chain invocations; the fuel bounds the recursion depth (the source recurses
without such a bound and can fail by exhausting the Python stack when a
half never falls under the threshold). -/
def process_text (env : TextEnv) : Nat → String → Option (String × Nat)
  | 0, _ => none
  | Nat.succ fuel, text =>
    if 8192 < env.token_len text then
      match process_text env fuel (split_text env text).1,
          process_text env fuel (split_text env text).2 with
      | some (r1, c1), some (r2, c2) => some (r1 ++ "\n" ++ r2, c1 + c2)
      | _, _ => none
    else
      some (env.chain text, 1)

/-- Concrete collaborator environment used to evaluate the chunking
behavior on small inputs. -/
def chunk_test_env : TextEnv where
  token_len := fun t => if t = "aaaa bbbb" then 9000 else 10
  sent_tokenize := fun t => if t = "aaaa bbbb" then ["aaaa", "bbbb"] else [t]
  chain := fun t => t

end PhenPrior

namespace PhenPrior

/-! ## Lemmas about the code scanner -/

/-- Every match produced by the scanner is the ten characters H, P, a colon
and seven digits; in particular it is nonempty and contains no comma. -/
theorem hpo_scan_shape (fuel : Nat) (l : List Char) :
    ∀ m ∈ hpo_scan fuel l, m ≠ [] ∧ ',' ∉ m := by
  induction fuel, l using hpo_scan.induct with
  | case1 l =>
    intro m hm
    rw [hpo_scan] at hm
    exact absurd hm (List.not_mem_nil m)
  | case2 n =>
    intro m hm
    rw [hpo_scan] at hm
    exact absurd hm (List.not_mem_nil m)
  | case3 fuel d1 d2 d3 d4 d5 d6 d7 rest hdig ih =>
    intro m hm
    rw [hpo_scan, if_pos hdig, List.mem_cons] at hm
    rcases hm with hm | hm
    · subst hm
      have hd := hdig
      simp only [Bool.and_eq_true] at hd
      obtain ⟨⟨⟨⟨⟨⟨h1, h2⟩, h3⟩, h4⟩, h5⟩, h6⟩, h7⟩ := hd
      refine ⟨by simp, ?_⟩
      intro hmem
      simp only [List.mem_cons, List.not_mem_nil, or_false] at hmem
      rcases hmem with h | h | h | h | h | h | h | h | h | h
      · exact absurd h (by decide)
      · exact absurd h (by decide)
      · exact absurd h (by decide)
      · subst h; exact absurd h1 (by decide)
      · subst h; exact absurd h2 (by decide)
      · subst h; exact absurd h3 (by decide)
      · subst h; exact absurd h4 (by decide)
      · subst h; exact absurd h5 (by decide)
      · subst h; exact absurd h6 (by decide)
      · subst h; exact absurd h7 (by decide)
    · exact ih m hm
  | case4 fuel d1 d2 d3 d4 d5 d6 d7 rest hdig ih =>
    intro m hm
    rw [hpo_scan, if_neg hdig] at hm
    exact ih m hm
  | case5 fuel c rest h ih =>
    intro m hm
    rw [hpo_scan.eq_4 fuel c rest h] at hm
    exact ih m hm

/-- Shape of the matches recovered from a response. -/
theorem hpo_matches_shape (l : List Char) :
    ∀ m ∈ hpo_matches l, m ≠ [] ∧ ',' ∉ m :=
  hpo_scan_shape l.length l

/-- When filter_terms returns a joined string, the recovered code list is
nonempty, the string is its comma-join, and splitting the string on commas
recovers exactly the code list. -/
theorem filter_terms_some (response s : List Char)
    (hs : filter_terms_result response = some s) :
    hpo_matches response ≠ [] ∧
    s = List.intercalate [','] (hpo_matches response) ∧
    List.splitOn ',' s = hpo_matches response ∧
    s ≠ [] := by
  unfold filter_terms_result at hs
  cases h : hpo_matches response with
  | nil =>
    rw [h] at hs
    cases hs
  | cons c cs =>
    rw [h] at hs
    have hv : s = List.intercalate [','] (c :: cs) := by
      have := hs
      simp only [Option.some.injEq] at this
      exact this.symm
    have hfree : ∀ m ∈ c :: cs, ',' ∉ m := by
      intro m hm
      exact (hpo_matches_shape response m (h ▸ hm)).2
    have hsplit : List.splitOn ',' s = c :: cs := by
      rw [hv]
      exact List.splitOn_intercalate (c :: cs) ',' hfree (by simp)
    refine ⟨by simp, hv, hsplit, ?_⟩
    intro hnil
    rw [hnil] at hsplit
    have he : ([[]] : List (List Char)) = c :: cs := by
      rw [← hsplit]
      rfl
    have hcnil : c = [] := by
      injection he with h1 h2
      exact h1.symm
    exact (hpo_matches_shape response c (h ▸ List.mem_cons_self c cs)).1 hcnil

/-! ## Lemmas about the two-phase identifier rewrite -/

/-- The executemany batch acts on the table cell-wise. -/
theorem apply_updates_map (ups : List (Int × Int)) (uids : List Int) :
    apply_updates ups uids = uids.map (cell_after ups) := by
  induction ups generalizing uids with
  | nil =>
    simp [apply_updates, cell_after]
  | cons p rest ih =>
    obtain ⟨newv, oldv⟩ := p
    show apply_updates rest (apply_update uids newv oldv) = _
    rw [ih, apply_update, List.map_map]
    rfl

/-- A nonnegative cell is never touched by any update of the batch, since
every update matches only the negation of a positive original identifier. -/
theorem cell_after_nonneg (ups : List (Int × Int)) :
    ∀ x : Int, (∀ p ∈ ups, 0 < p.2) → 0 ≤ x → cell_after ups x = x := by
  induction ups with
  | nil =>
    intro x _ _
    rfl
  | cons p rest ih =>
    intro x hpos hx
    obtain ⟨newv, oldv⟩ := p
    have ho : 0 < oldv := hpos (newv, oldv) (List.mem_cons_self _ _)
    have hne : x ≠ -oldv := by omega
    rw [cell_after, if_neg hne]
    exact ih x (fun q hq => hpos q (List.mem_cons_of_mem _ hq)) hx

/-- A cell holding the negation of an original identifier that occurs in
the batch receives exactly the adjusted position paired with it: earlier
updates with distinct old values never match it, the matching update
rewrites it to the positive new value, and later updates leave positive
values alone. -/
theorem cell_after_lookup (ups : List (Int × Int)) :
    ∀ v u : Int, (ups.map Prod.snd).Nodup → (∀ p ∈ ups, 0 < p.1) →
      (∀ p ∈ ups, 0 < p.2) → (v, u) ∈ ups → cell_after ups (-u) = v := by
  induction ups with
  | nil =>
    intro v u _ _ _ h
    exact absurd h (List.not_mem_nil _)
  | cons p rest ih =>
    intro v u hnd hf hs hmem
    obtain ⟨newv, oldv⟩ := p
    rw [List.map_cons, List.nodup_cons] at hnd
    rcases List.mem_cons.mp hmem with heq | hmem'
    · injection heq with hv hu
      subst hv
      subst hu
      rw [cell_after, if_pos rfl]
      exact cell_after_nonneg rest v
        (fun q hq => hs q (List.mem_cons_of_mem _ hq))
        (le_of_lt (hf (v, u) (List.mem_cons_self _ _)))
    · have hune : u ≠ oldv := by
        intro h
        exact hnd.1 (h ▸ List.mem_map.mpr ⟨(v, u), hmem', rfl⟩)
      have hne : -u ≠ -oldv := by omega
      rw [cell_after, if_neg hne]
      exact ih v u hnd.2
        (fun q hq => hf q (List.mem_cons_of_mem _ hq))
        (fun q hq => hs q (List.mem_cons_of_mem _ hq)) hmem'

/-- Mapping the batch effect over the negated old identifiers, in the
order in which they appear in the batch, yields exactly the list of new
values of the batch. -/
theorem cell_after_map_snd (ups : List (Int × Int)) :
    (ups.map Prod.snd).Nodup → (∀ p ∈ ups, 0 < p.1) → (∀ p ∈ ups, 0 < p.2) →
    (ups.map Prod.snd).map (fun u => cell_after ups (-u)) = ups.map Prod.fst := by
  induction ups with
  | nil =>
    intro _ _ _
    rfl
  | cons p rest ih =>
    intro hnd hf hs
    obtain ⟨newv, oldv⟩ := p
    have hnd' := hnd
    rw [List.map_cons, List.nodup_cons] at hnd'
    rw [List.map_cons, List.map_cons, List.map_cons]
    congr 1
    · exact cell_after_lookup ((newv, oldv) :: rest) newv oldv hnd hf hs
        (List.mem_cons_self _ _)
    · rw [← ih hnd'.2
        (fun q hq => hf q (List.mem_cons_of_mem _ hq))
        (fun q hq => hs q (List.mem_cons_of_mem _ hq))]
      apply List.map_congr_left
      intro u hu
      have hune : u ≠ oldv := by
        intro h
        exact hnd'.1 (h ▸ hu)
      have hne : -u ≠ -oldv := by omega
      show cell_after ((newv, oldv) :: rest) (-u) = cell_after rest (-u)
      rw [cell_after, if_neg hne]

/-! ## Lemmas about the adjusted-position sort -/

/-- Transitivity of the secondary key ordering. -/
theorem posLEb_trans (a b c : Option Nat) (h1 : posLEb a b = true)
    (h2 : posLEb b c = true) : posLEb a c = true := by
  cases a <;> cases b <;> cases c <;> simp_all [posLEb]
  omega

/-- Totality of the secondary key ordering. -/
theorem posLEb_total (a b : Option Nat) : (posLEb a b || posLEb b a) = true := by
  cases a <;> cases b <;> simp_all [posLEb]
  omega

/-- Transitivity of the lexicographic sort key. -/
theorem keyLEb_trans (a b c : Variant × Option Nat)
    (h1 : keyLEb a b = true) (h2 : keyLEb b c = true) : keyLEb a c = true := by
  unfold keyLEb at h1 h2 ⊢
  simp only [Bool.or_eq_true, Bool.and_eq_true, decide_eq_true_eq] at h1 h2 ⊢
  rcases h1 with h1 | ⟨h1e, h1p⟩ <;> rcases h2 with h2 | ⟨h2e, h2p⟩
  · exact Or.inl (lt_trans h1 h2)
  · exact Or.inl (by omega)
  · exact Or.inl (by omega)
  · exact Or.inr ⟨by omega, posLEb_trans _ _ _ h1p h2p⟩

/-- Totality of the lexicographic sort key. -/
theorem keyLEb_total (a b : Variant × Option Nat) :
    (keyLEb a b || keyLEb b a) = true := by
  unfold keyLEb
  simp only [Bool.or_eq_true, Bool.and_eq_true, decide_eq_true_eq]
  rcases Nat.lt_trichotomy (acmgRank a.1.acmg) (acmgRank b.1.acmg) with h | h | h
  · exact Or.inl (Or.inl h)
  · have htot := posLEb_total a.2 b.2
    rw [Bool.or_eq_true] at htot
    rcases htot with hp | hp
    · exact Or.inl (Or.inr ⟨h, hp⟩)
    · exact Or.inr (Or.inr ⟨h.symm, hp⟩)
  · exact Or.inr (Or.inl h)

/-- The rows of the adjusted-position table are a permutation of the
variant rows. -/
theorem adjust_positions_fst (rows : List Variant) (symbols : List String) :
    ((adjust_positions rows symbols).map Prod.fst).Perm rows := by
  unfold adjust_positions
  rw [List.map_map]
  have h1 : (Prod.fst ∘ fun ip : Nat × (Variant × Option Nat) => (ip.2.1, ip.1 + 1))
      = (Prod.fst ∘ (Prod.snd : Nat × (Variant × Option Nat) → Variant × Option Nat)) := rfl
  rw [h1, ← List.map_map, List.enum_map_snd]
  have h3 := (List.mergeSort_perm
    (rows.map (fun r => (r, extract_pos r.gene symbols))) keyLEb).map
    (Prod.fst : Variant × Option Nat → Variant)
  have h4 : (rows.map (fun r => (r, extract_pos r.gene symbols))).map Prod.fst
      = rows := by
    rw [List.map_map]
    have hid : (Prod.fst ∘ fun r : Variant => (r, extract_pos r.gene symbols))
        = fun r : Variant => r := rfl
    rw [hid, List.map_id']
  rw [h4] at h3
  exact h3

/-- The adjusted positions are exactly one to n in sorted order. -/
theorem adjust_positions_snd (rows : List Variant) (symbols : List String) :
    (adjust_positions rows symbols).map Prod.snd
      = (List.range rows.length).map (fun i => i + 1) := by
  unfold adjust_positions
  rw [List.map_map]
  have h1 : (Prod.snd ∘ fun ip : Nat × (Variant × Option Nat) => (ip.2.1, ip.1 + 1))
      = ((fun i => i + 1) ∘ (Prod.fst : Nat × (Variant × Option Nat) → Nat)) := rfl
  rw [h1, ← List.map_map, List.enum_map_fst, List.length_mergeSort, List.length_map]

/-- The adjusted-position table is sorted by category rank first and
ranking-CSV position second, rows without a CSV match coming last within
their category. -/
theorem adjust_positions_sorted (rows : List Variant) (symbols : List String) :
    (adjust_positions rows symbols).Pairwise (fun a b =>
      acmgRank a.1.acmg < acmgRank b.1.acmg ∨
        (acmgRank a.1.acmg = acmgRank b.1.acmg ∧
          posLEb (extract_pos a.1.gene symbols)
            (extract_pos b.1.gene symbols) = true)) := by
  have hsor := List.sorted_mergeSort keyLEb_trans keyLEb_total
    (rows.map (fun r => (r, extract_pos r.gene symbols)))
  have hmem : ∀ p ∈ (rows.map
      (fun r => (r, extract_pos r.gene symbols))).mergeSort keyLEb,
      p.2 = extract_pos p.1.gene symbols := by
    intro p hp
    rw [List.mem_mergeSort] at hp
    rcases List.mem_map.mp hp with ⟨r, _, rfl⟩
    rfl
  have hS : ((rows.map (fun r => (r, extract_pos r.gene symbols))).mergeSort
      keyLEb).Pairwise (fun a b : Variant × Option Nat =>
        acmgRank a.1.acmg < acmgRank b.1.acmg ∨
          (acmgRank a.1.acmg = acmgRank b.1.acmg ∧
            posLEb (extract_pos a.1.gene symbols)
              (extract_pos b.1.gene symbols) = true)) := by
    refine List.Pairwise.imp_of_mem ?_ hsor
    intro a b ha hb hab
    rw [keyLEb, Bool.or_eq_true, Bool.and_eq_true, decide_eq_true_eq,
      decide_eq_true_eq] at hab
    rcases hab with h | ⟨he, hp⟩
    · exact Or.inl h
    · exact Or.inr ⟨he, by rw [← hmem a ha, ← hmem b hb]; exact hp⟩
  rw [← List.enum_map_snd ((rows.map
    (fun r => (r, extract_pos r.gene symbols))).mergeSort keyLEb)] at hS
  unfold adjust_positions
  rw [List.pairwise_map]
  exact List.pairwise_map.mp hS

/-- A gene has no extracted position exactly when it is absent from the
Symbol column of the ranking CSV. -/
theorem extract_pos_none_iff (g : String) (symbols : List String) :
    extract_pos g symbols = none ↔ ∀ s ∈ symbols, (s == g) = false := by
  unfold extract_pos
  rw [Option.map_eq_none']
  exact List.findIdx?_eq_none_iff

/-! ## Theorems for claims C1, C3, C4, C7 -/

/-- C1: the claim states that every artifact is named with a two-digit step
number and that after a successful Rank step the pipeline has renamed the
ranking CSV to sample_name_05_clinprior.csv, which Persist then reads. The
code contradicts this and its own completeness check: for the repository
default sample FND00006610, the Rank step succeeds while leaving only
FND00006610_clinprior.csv, the name read by Persist is absent, the Persist
step fails with FileNotFoundError, and the file written by the Normalize
step is not the numbered name the completeness check expects. -/
theorem c1_artifact_naming_code_bug :
    execute_clinprior_files
        (pipeline_written_files "FND00006610" ++ ["clinprior_script.r"])
        "FND00006610" 0
      = Except.ok (pipeline_written_files "FND00006610" ++ ["clinprior_script.r"]) ∧
    (pipeline_written_files "FND00006610" ++ ["clinprior_script.r"]).contains
        (persist_csv "FND00006610") = false ∧
    modify_sqlite_csv_check
        (pipeline_written_files "FND00006610" ++ ["clinprior_script.r"])
        "FND00006610"
      = Except.error "ClinPrior CSV not found" ∧
    write_text_name "FND00006610" "_processed_text"
      ≠ "FND00006610_02_processed_text.txt" ∧
    is_output_complete
        (pipeline_written_files "FND00006610" ++ ["clinprior_script.r"])
        "FND00006610" = false := by
  refine ⟨rfl, by decide, rfl, by decide, by decide⟩

/-- C3: the resumability check reports complete exactly when the three
expected terminal artifacts all exist in the candidate directory, and an
existing directory that is not complete is recursively deleted and the
document re-executed from the start. -/
theorem c3_resumability_check (files : List String) (sample_name : String)
    (dir_exists : Bool) :
    (is_output_complete files sample_name = true ↔
      (files.contains (sample_name ++ "_02_processed_text.txt") = true ∧
       files.contains (sample_name ++ "_04_filtered_terms.txt") = true ∧
       files.contains (sample_name ++ "_05_clinprior.csv") = true)) ∧
    (dir_exists = true → is_output_complete files sample_name = false →
      batch_doc_action dir_exists files sample_name = DocAction.deleteThenRun) := by
  constructor
  · simp [is_output_complete, expected_artifacts]
  · intro h1 h2
    simp [batch_doc_action, h1, h2]

/-- Witness for C3 at a concrete incomplete directory. -/
theorem c3_resumability_check_witness :
    batch_doc_action true ["S_02_processed_text.txt"] "S" = DocAction.deleteThenRun :=
  (c3_resumability_check ["S_02_processed_text.txt"] "S" true).2 rfl (by decide)

/-- C4: when exactly one of the dispatched runs raises, the failing run is
caught at run granularity with its error text recorded as an error artifact
in its own result directory, every other run succeeds without an error
artifact, and the final report counts length minus one successes and one
failure. -/
theorem c4_batch_fault_isolation (pre post : List (Except String Unit))
    (e : String)
    (hpre : ∀ o ∈ pre, o = Except.ok ())
    (hpost : ∀ o ∈ post, o = Except.ok ()) :
    batch_report (pre ++ Except.error e :: post)
      = ((pre ++ Except.error e :: post).length - 1, 1) ∧
    batch_results (pre ++ Except.error e :: post)
      = pre.map run_pipeline_sync
        ++ { error_artifact := some e, ok := false } :: post.map run_pipeline_sync ∧
    (∀ r ∈ pre.map run_pipeline_sync, r.error_artifact = none ∧ r.ok = true) ∧
    (∀ r ∈ post.map run_pipeline_sync, r.error_artifact = none ∧ r.ok = true) := by
  have hok : ∀ (o : Except String Unit), o = Except.ok () →
      run_pipeline_sync o = { error_artifact := none, ok := true } := by
    intro o h; subst h; rfl
  have hcnt : ∀ (l : List (Except String Unit)), (∀ o ∈ l, o = Except.ok ()) →
      (l.map run_pipeline_sync).countP (fun r => !r.ok) = 0 := by
    intro l hl
    rw [List.countP_eq_zero]
    intro r hr
    rcases List.mem_map.mp hr with ⟨o, ho, rfl⟩
    rw [hok o (hl o ho)]
    simp
  refine ⟨?_, ?_, ?_, ?_⟩
  · unfold batch_report batch_results
    simp only [List.map_append, List.map_cons, List.countP_append, List.countP_cons]
    rw [hcnt pre hpre, hcnt post hpost]
    simp [run_pipeline_sync]
  · unfold batch_results
    simp [run_pipeline_sync]
  · intro r hr
    rcases List.mem_map.mp hr with ⟨o, ho, rfl⟩
    rw [hok o (hpre o ho)]
    exact ⟨rfl, rfl⟩
  · intro r hr
    rcases List.mem_map.mp hr with ⟨o, ho, rfl⟩
    rw [hok o (hpost o ho)]
    exact ⟨rfl, rfl⟩

/-- Witness for C4: three runs, the middle one failing, report two
successes and one failure, with the error artifact only on the failed run. -/
theorem c4_batch_fault_isolation_witness :
    batch_report [Except.ok (), Except.error "boom", Except.ok ()] = (2, 1) ∧
    batch_results [Except.ok (), Except.error "boom", Except.ok ()]
      = [{ error_artifact := none, ok := true },
         { error_artifact := some "boom", ok := false },
         { error_artifact := none, ok := true }] := by
  have h := c4_batch_fault_isolation [Except.ok ()] [Except.ok ()] "boom"
    (by intro o ho; rw [List.mem_singleton] at ho; exact ho)
    (by intro o ho; rw [List.mem_singleton] at ho; exact ho)
  exact ⟨h.1, h.2.1⟩

/-- C7 counterexample: the claim states that an empty extraction result is
fatal to the run; at a concrete input with exit code zero, no timeout and
empty parsed output, the code returns the empty string successfully instead
of raising. -/
theorem c7_empty_result_counterexample :
    execute_phenotagger_result 10 0 "" = Except.ok "" := rfl

/-- C7 amended: the Extract step collaborator invocation fails exactly when
the container exceeds the one-hour wall-clock ceiling or exits non-zero; an
empty result is not fatal and is returned as the empty string. -/
theorem c7_phenotagger_failure_conditions (elapsed : Nat) (rc : Int)
    (parsed : String) :
    (∃ msg, execute_phenotagger_result elapsed rc parsed = Except.error msg) ↔
      (DOCKER_TIMEOUT < elapsed ∨ rc ≠ 0) := by
  unfold execute_phenotagger_result
  by_cases h1 : DOCKER_TIMEOUT < elapsed
  · simp [h1]
  · by_cases h2 : rc = 0
    · simp [h1, h2]
    · simp [h1, h2]

/-- Witness for C7 amended: a non-zero exit code within the time ceiling
is an error. -/
theorem c7_phenotagger_failure_conditions_witness :
    ∃ msg, execute_phenotagger_result 100 1 "out" = Except.error msg :=
  (c7_phenotagger_failure_conditions 100 1 "out").mpr (Or.inr (by decide))

/-- C6 counterexample: the claim states that the comma-joined code list
contains each distinct code exactly once with duplicates removed; on a
response containing the same code twice, the source joins both occurrences
and the resulting list holds the code twice. -/
theorem c6_dedup_counterexample :
    filter_terms_result ("Term HP:0000001 and again HP:0000001".toList)
      = some ("HP:0000001,HP:0000001".toList) ∧
    List.count ("HP:0000001".toList)
      (List.splitOn ',' ("HP:0000001,HP:0000001".toList)) = 2 := by
  constructor
  · decide
  · decide

/-- C6 amended: the comma-joined code list returned by the Filter step
contains every HP-code occurrence of the response, in order of appearance
in the response, with duplicates retained (no deduplication is performed);
the step returns None exactly when no code matched. -/
theorem c6_filter_codes_occurrences (response : List Char) :
    (filter_terms_result response = none ↔ hpo_matches response = []) ∧
    ∀ s, filter_terms_result response = some s →
      List.splitOn ',' s = hpo_matches response := by
  constructor
  · unfold filter_terms_result
    cases h : hpo_matches response with
    | nil => simp
    | cons c cs => simp
  · intro s hs
    exact (filter_terms_some response s hs).2.2.1

/-- Witness for C6 amended at a concrete response with one code. -/
theorem c6_filter_codes_occurrences_witness :
    List.splitOn ',' ("HP:0000123".toList)
      = hpo_matches ("xx HP:0000123 yy".toList) :=
  (c6_filter_codes_occurrences ("xx HP:0000123 yy".toList)).2
    ("HP:0000123".toList) (by decide)

/-- C8: when the Filter-step response yields zero recognizable codes,
filter_terms returns None and the Rank step receives exactly the single
default code HP:0000118 as its term list; the run does not fail. -/
theorem c8_fallback_default (response : List Char) (wl : List (List Char))
    (h : hpo_matches response = []) :
    filter_terms_result response = none ∧
    final_terms (filter_terms_result response) wl = defaultHpo := by
  have h1 : filter_terms_result response = none := by
    unfold filter_terms_result
    rw [h]
  exact ⟨h1, by rw [h1]; rfl⟩

/-- Witness for C8 at a concrete response with no code. -/
theorem c8_fallback_default_witness :
    filter_terms_result ("no codes in this response".toList) = none ∧
    final_terms (filter_terms_result ("no codes in this response".toList)) []
      = defaultHpo :=
  c8_fallback_default ("no codes in this response".toList) [] (by decide)

/-- C10: the default-code fallback applies only to a falsy filter result:
when the Filter step returned at least one code but none of the codes is in
the whitelist, the Rank step receives the empty string, not the default
code. -/
theorem c10_whitelist_miss_empty (response : List Char)
    (wl : List (List Char)) (s : List Char)
    (hs : filter_terms_result response = some s)
    (hwl : ∀ c ∈ hpo_matches response, wl.contains c = false) :
    final_terms (filter_terms_result response) wl = [] ∧
    final_terms (filter_terms_result response) wl ≠ defaultHpo := by
  obtain ⟨hne, hv, hsplit, hsne⟩ := filter_terms_some response s hs
  have hmain : final_terms (filter_terms_result response) wl = [] := by
    rw [hs]
    show (if s = [] then defaultHpo
      else List.intercalate [',']
        (List.filter (fun t => wl.contains t) (List.splitOn ',' s))) = []
    rw [if_neg hsne, hsplit]
    have hfilter : (hpo_matches response).filter (fun t => wl.contains t) = [] := by
      rw [List.filter_eq_nil_iff]
      intro a ha
      rw [hwl a ha]
      simp
    rw [hfilter]
    rfl
  refine ⟨hmain, ?_⟩
  rw [hmain]
  decide

/-- Witness for C10: a response with one recognized code and an empty
whitelist sends the empty term list to the ranking collaborator. -/
theorem c10_whitelist_miss_empty_witness :
    final_terms (filter_terms_result ("HP:0000001".toList)) [] = [] :=
  (c10_whitelist_miss_empty ("HP:0000001".toList) [] ("HP:0000001".toList)
    (by decide) (by decide)).1

/-- C2: for a variant table whose identifiers are exactly the distinct
positive integers one to n, and an executemany batch whose old values are
those identifiers and whose adjusted positions are a permutation of one to
n, the two-phase update of modify_sqlite (negate all positive identifiers,
then set each row whose identifier equals the negated old value to its
adjusted position) leaves the multiset of identifiers equal to one to n,
with no duplicate and no missing value, for every execution order of the
per-row updates. -/
theorem c2_uid_set_preserved (n : Nat) (uids : List Int)
    (ups ups' : List (Int × Int))
    (huids : uids.Perm (oneTo n))
    (hsnd : (ups.map Prod.snd).Perm uids)
    (hfst : (ups.map Prod.fst).Perm (oneTo n))
    (hperm : ups'.Perm ups) :
    (apply_updates ups' (negate_positives uids)).Perm (oneTo n) := by
  have hone_pos : ∀ x ∈ oneTo n, 0 < x := by
    intro x hx
    rcases List.mem_map.mp hx with ⟨i, _, rfl⟩
    omega
  have hinj : Function.Injective (fun i : Nat => (i : Int) + 1) := by
    intro a b hab
    simp only at hab
    omega
  have hone_nd : (oneTo n).Nodup :=
    List.Nodup.map hinj (List.nodup_range n)
  have huids_pos : ∀ x ∈ uids, 0 < x :=
    fun x hx => hone_pos x (huids.mem_iff.mp hx)
  have huids_nd : uids.Nodup := huids.nodup_iff.mpr hone_nd
  have hsnd_pos : ∀ p ∈ ups, 0 < p.2 := by
    intro p hp
    exact huids_pos p.2 (hsnd.mem_iff.mp (List.mem_map.mpr ⟨p, hp, rfl⟩))
  have hsnd_nd : (ups.map Prod.snd).Nodup := hsnd.nodup_iff.mpr huids_nd
  have hfst_pos : ∀ p ∈ ups, 0 < p.1 := by
    intro p hp
    exact hone_pos p.1 (hfst.mem_iff.mp (List.mem_map.mpr ⟨p, hp, rfl⟩))
  have hperm_snd : (ups'.map Prod.snd).Perm (ups.map Prod.snd) :=
    hperm.map _
  have hsnd_nd' : (ups'.map Prod.snd).Nodup := hperm_snd.nodup_iff.mpr hsnd_nd
  have hfst_pos' : ∀ p ∈ ups', 0 < p.1 :=
    fun p hp => hfst_pos p (hperm.mem_iff.mp hp)
  have hsnd_pos' : ∀ p ∈ ups', 0 < p.2 :=
    fun p hp => hsnd_pos p (hperm.mem_iff.mp hp)
  have hneg : negate_positives uids = uids.map (fun x => -x) := by
    unfold negate_positives
    apply List.map_congr_left
    intro x hx
    rw [if_pos (huids_pos x hx)]
  rw [apply_updates_map, hneg, List.map_map]
  have hpoint : ∀ x ∈ uids,
      (cell_after ups' ∘ fun y => -y) x = (fun y => cell_after ups (-y)) x := by
    intro x hx
    have hxm : x ∈ ups.map Prod.snd := hsnd.mem_iff.mpr hx
    rcases List.mem_map.mp hxm with ⟨⟨v, u⟩, hp, rfl⟩
    show cell_after ups' (-u) = cell_after ups (-u)
    rw [cell_after_lookup ups' v u hsnd_nd' hfst_pos' hsnd_pos'
        (hperm.mem_iff.mpr hp),
      cell_after_lookup ups v u hsnd_nd hfst_pos hsnd_pos hp]
  rw [List.map_congr_left hpoint]
  have h1 : (uids.map (fun y => cell_after ups (-y))).Perm
      ((ups.map Prod.snd).map (fun y => cell_after ups (-y))) :=
    (hsnd.symm).map _
  have h2 : (ups.map Prod.snd).map (fun y => cell_after ups (-y))
      = ups.map Prod.fst :=
    cell_after_map_snd ups hsnd_nd hfst_pos hsnd_pos
  exact h1.trans (h2 ▸ hfst)

/-- Witness for C2: identifiers one to three, adjusted positions three,
one, two, executed in an order different from the batch order, still leave
the identifier set exactly one to three. -/
theorem c2_uid_set_preserved_witness :
    (apply_updates [(1, 2), (2, 3), (3, 1)]
      (negate_positives [1, 2, 3])).Perm (oneTo 3) :=
  c2_uid_set_preserved 3 [1, 2, 3] [(3, 1), (1, 2), (2, 3)]
    [(1, 2), (2, 3), (3, 1)]
    (by decide) (by decide) (by decide) (by decide)

/-- C5: in the Persist step the computed adjusted positions are the
ordinals one to n of the variant rows sorted with primary key the fixed
five-level pathogenicity-category ordering and secondary key the
ranking-CSV row index, rows whose gene symbol is absent from the CSV (key
none, which posLEb places after every index) sorting last within their
category: the output rows are a permutation of the input rows, their
positions are one to n in order, consecutive output rows are ordered by
the lexicographic key, and the key is none exactly for genes absent from
the Symbol column. -/
theorem c5_adjusted_positions (rows : List Variant) (symbols : List String) :
    ((adjust_positions rows symbols).map Prod.fst).Perm rows ∧
    (adjust_positions rows symbols).map Prod.snd
      = (List.range rows.length).map (fun i => i + 1) ∧
    (adjust_positions rows symbols).Pairwise (fun a b =>
      acmgRank a.1.acmg < acmgRank b.1.acmg ∨
        (acmgRank a.1.acmg = acmgRank b.1.acmg ∧
          posLEb (extract_pos a.1.gene symbols)
            (extract_pos b.1.gene symbols) = true)) ∧
    (∀ g, extract_pos g symbols = none ↔ ∀ s ∈ symbols, (s == g) = false) :=
  ⟨adjust_positions_fst rows symbols, adjust_positions_snd rows symbols,
   adjust_positions_sorted rows symbols, fun g => extract_pos_none_iff g symbols⟩

/-- Witness for C5 at a concrete gene and Symbol column: a gene absent
from the CSV has no extracted position, hence sorts last in its category. -/
theorem c5_adjusted_positions_witness :
    extract_pos "GENE1" ["GENE2", "GENE3"] = none :=
  ((c5_adjusted_positions [] ["GENE2", "GENE3"]).2.2.2 "GENE1").mpr (by decide)

/-- C9: text under the token threshold is sent through the collaborator
chain exactly once as a whole; text over the threshold is split into
exactly two parts at a sentence boundary, the concatenation of the two
parts' sentence sequences being the original sentence sequence with no
sentence duplicated or dropped, each part is processed independently, and
the two outputs are joined by a single newline. -/
theorem c9_chunking (env : TextEnv) (text : String) (fuel : Nat) :
    (env.token_len text < 8192 →
      process_text env (fuel + 1) text = some (env.chain text, 1)) ∧
    (8192 < env.token_len text →
      ((env.sent_tokenize text).take ((env.sent_tokenize text).length / 2) ++
          (env.sent_tokenize text).drop ((env.sent_tokenize text).length / 2)
        = env.sent_tokenize text) ∧
      ∀ r1 c1 r2 c2,
        process_text env fuel (split_text env text).1 = some (r1, c1) →
        process_text env fuel (split_text env text).2 = some (r2, c2) →
        process_text env (fuel + 1) text = some (r1 ++ "\n" ++ r2, c1 + c2)) := by
  constructor
  · intro hlow
    have hn : ¬ 8192 < env.token_len text := by omega
    rw [process_text, if_neg hn]
  · intro hhigh
    refine ⟨List.take_append_drop _ _, ?_⟩
    intro r1 c1 r2 c2 h1 h2
    rw [process_text, if_pos hhigh, h1, h2]

/-- Witness for C9: in the concrete environment the short half goes through
the chain once unsplit, and the long text is split into its two sentence
halves whose processed outputs are joined by one newline. -/
theorem c9_chunking_witness :
    process_text chunk_test_env 2 "aaaa" = some ("aaaa", 1) ∧
    process_text chunk_test_env 2 "aaaa bbbb" = some ("aaaa" ++ "\n" ++ "bbbb", 1 + 1) := by
  constructor
  · exact (c9_chunking chunk_test_env "aaaa" 1).1 (by decide)
  · exact ((c9_chunking chunk_test_env "aaaa bbbb" 1).2 (by decide)).2
      "aaaa" 1 "bbbb" 1 (by decide) (by decide)

end PhenPrior
